import Mathlib

/-!
Verification of the goal-relabeling and experience-replay subsystem of an
off-policy hindsight-experience-replay (HER) training stack.

The embedding follows the Python source:
- environments/hindsight_wrapper.py (Observation, HindsightWrapper.step,
  MountaincarHindsightWrapper.step, FrozenLakeHindsightWrapper.step,
  HindsightWrapper.recompute_trajectory, HindsightWrapper.preprocess_obs);
- sac/train.py (Trainer.run_episode, Trainer.is_eval_period,
  Trainer.add_to_buffer, HindsightTrainer.add_hindsight_trajectories);
- sac/networks.py (LstmAgent.train_step reward scaling).

Trajectories are modelled as lists of transitions; the batched numpy array
operations of the source (ArrayGroup slicing and in-place assignment) become
List.map / List.take over the list of per-step records.
-/

namespace HER

/-- Tri-part observation, from environments/hindsight_wrapper.py line 21:
a namedtuple of (observation, achieved_goal, desired_goal). -/
structure Observation (O G : Type) where
  observation : O
  achieved_goal : G
  desired_goal : G
deriving DecidableEq

/-- One transition, the Step namedtuple with fields (o1, a, r, o2, t) used
throughout the source (sac/utils.py is not under src; the field set is fixed
by its uses in sac/train.py line 115 and hindsight_wrapper.py lines 52-67).
Rewards, floats in the source, are modelled as rationals. -/
structure Step (O G A : Type) where
  o1 : Observation O G
  a : A
  r : ℚ
  o2 : Observation O G
  t : Bool
deriving DecidableEq

variable {O G A : Type}

/-- Effect of recompute_trajectory (hindsight_wrapper.py lines 61-64) on one
step of the working copy: both desired goals are overwritten with the anchor
goal g, the reward becomes is_success(state2.achieved_goal, g) (line 63 reads
o2.desired_goal after line 62 overwrote it with g), and the terminal becomes
original terminal OR success (line 64 reads the already-updated reward). -/
def relabelStep (succ : G → G → Bool) (g : G) (s : Step O G A) : Step O G A :=
  { s with
    o1 := { s.o1 with desired_goal := g }
    o2 := { s.o2 with desired_goal := g }
    r := if succ s.o2.achieved_goal g then 1 else 0
    t := s.t || succ s.o2.achieved_goal g }

/-- The batched in-place assignments of hindsight_wrapper.py lines 61-64,
applied to every step of the (copied) trajectory. -/
def relabelAll (succ : G → G → Bool) (g : G) (traj : List (Step O G A)) :
    List (Step O G A) :=
  traj.map (relabelStep succ g)

/-- ArrayGroup(o2.achieved_goal)[-1] of hindsight_wrapper.py line 58: the
achieved goal of the last state2 of the trajectory slice; none when the
slice is empty (numpy raises IndexError there). -/
def lastAchievedGoal (traj : List (Step O G A)) : Option G :=
  traj.getLast?.map (fun s => s.o2.achieved_goal)

/-- np.flatnonzero(...)[0] of hindsight_wrapper.py line 66 specialised to a
boolean vector: index of the first true entry, none when there is no true
entry (numpy raises IndexError there). -/
def firstTrueIdx : List Bool → Option Nat
  | [] => none
  | b :: bs => if b then some 0 else (firstTrueIdx bs).map (· + 1)

/-- HindsightWrapper.recompute_trajectory (hindsight_wrapper.py lines 52-67):
deep-copy the trajectory, take the last achieved goal as the new desired goal,
rewrite desired goals, recompute rewards and terminals, and keep the prefix up
to and including the first terminal.  Returns none exactly where the source
raises IndexError (empty slice, or no terminal after recomputation). -/
def recomputeTrajectory (succ : G → G → Bool) (traj : List (Step O G A)) :
    Option (List (Step O G A)) :=
  match lastAchievedGoal traj with
  | none => none
  | some g =>
    match firstTrueIdx ((relabelAll succ g traj).map (fun s => s.t)) with
    | none => none
    | some k => some ((relabelAll succ g traj).take (k + 1))

theorem firstTrueIdx_lt_length (l : List Bool) (k : Nat)
    (h : firstTrueIdx l = some k) : k < l.length := by
  induction l generalizing k with
  | nil => simp [firstTrueIdx] at h
  | cons b bs ih =>
    by_cases hb : b = true
    · simp [firstTrueIdx, hb] at h
      simp only [List.length_cons]
      omega
    · simp at hb
      simp [firstTrueIdx, hb] at h
      obtain ⟨k0, hk0, hk⟩ := h
      have := ih k0 hk0
      simp only [List.length_cons, ← hk]
      omega

theorem firstTrueIdx_getElem (l : List Bool) (k : Nat)
    (h : firstTrueIdx l = some k) (hk : k < l.length) : l[k] = true := by
  induction l generalizing k with
  | nil => simp [firstTrueIdx] at h
  | cons b bs ih =>
    by_cases hb : b = true
    · simp [firstTrueIdx, hb] at h
      simp [← h, hb]
    · simp at hb
      simp [firstTrueIdx, hb] at h
      obtain ⟨k0, hk0, hk'⟩ := h
      subst hk'
      simpa using ih k0 hk0 (by simpa using firstTrueIdx_lt_length bs k0 hk0)

theorem firstTrueIdx_take_all_false (l : List Bool) (k : Nat)
    (h : firstTrueIdx l = some k) : (l.take k).all (fun b => !b) = true := by
  induction l generalizing k with
  | nil => simp [firstTrueIdx] at h
  | cons b bs ih =>
    by_cases hb : b = true
    · simp [firstTrueIdx, hb] at h
      simp [← h]
    · simp at hb
      simp [firstTrueIdx, hb] at h
      obtain ⟨k0, hk0, hk'⟩ := h
      subst hk'
      rw [List.take_succ_cons, List.all_cons, hb]
      simp only [Bool.not_false, Bool.true_and]
      exact ih k0 hk0

theorem firstTrueIdx_isSome_of_true (l : List Bool) (j : Nat)
    (hj : j < l.length) (ht : l[j] = true) :
    ∃ k, firstTrueIdx l = some k ∧ k ≤ j := by
  induction l generalizing j with
  | nil => simp at hj
  | cons b bs ih =>
    by_cases hb : b = true
    · exact ⟨0, by simp [firstTrueIdx, hb], Nat.zero_le j⟩
    · simp at hb
      cases j with
      | zero => simp [hb] at ht
      | succ j0 =>
        obtain ⟨k0, hk0, hle⟩ := ih j0 (by simpa using hj) (by simpa using ht)
        exact ⟨k0 + 1, by simp [firstTrueIdx, hb, hk0], by omega⟩

theorem recompute_spec (succ : G → G → Bool) (traj res : List (Step O G A))
    (h : recomputeTrajectory succ traj = some res) :
    ∃ g k, lastAchievedGoal traj = some g ∧
      firstTrueIdx ((relabelAll succ g traj).map (fun s => s.t)) = some k ∧
      res = (relabelAll succ g traj).take (k + 1) := by
  unfold recomputeTrajectory at h
  split at h
  · simp at h
  · rename_i g hg
    split at h
    · simp at h
    · rename_i k hk
      simp only [Option.some.injEq] at h
      exact ⟨g, k, hg, hk, h.symm⟩

theorem recompute_res_eq (succ : G → G → Bool) (traj res : List (Step O G A)) (g : G)
    (h : recomputeTrajectory succ traj = some res) (hg : lastAchievedGoal traj = some g) :
    res = (traj.take res.length).map (relabelStep succ g) ∧
      0 < res.length ∧ res.length ≤ traj.length := by
  obtain ⟨g', k, hg', hk, hres⟩ := recompute_spec succ traj res h
  have hgg : g' = g := by
    rw [hg'] at hg
    exact Option.some.inj hg
  subst hgg
  have hklt : k < traj.length := by
    have := firstTrueIdx_lt_length _ _ hk
    simpa [relabelAll] using this
  have hlen : res.length = k + 1 := by
    rw [hres]
    simp [relabelAll]
    omega
  refine ⟨?_, by omega, by omega⟩
  rw [hlen, hres, relabelAll, List.map_take]

theorem mem_recompute (succ : G → G → Bool) (traj res : List (Step O G A)) (g : G)
    (h : recomputeTrajectory succ traj = some res) (hg : lastAchievedGoal traj = some g)
    (s : Step O G A) (hs : s ∈ res) : ∃ s0, s0 ∈ traj ∧ s = relabelStep succ g s0 := by
  obtain ⟨hres, -, -⟩ := recompute_res_eq succ traj res g h hg
  rw [hres] at hs
  obtain ⟨s0, hs0, hmap⟩ := List.mem_map.mp hs
  exact ⟨s0, List.mem_of_mem_take hs0, hmap.symm⟩

/-- C1: for every non-empty trajectory slice handed to recompute_trajectory and
every anchor (the anchor is the last step of the slice, whose state2 achieved
goal g is read at hindsight_wrapper.py line 58), every retained step of the
relabeled result has both desired goals equal to g, reward equal to
is_success(state2.achieved_goal, g), and terminal equal to the original
terminal OR success. -/
theorem relabel_correctness (succ : G → G → Bool) (traj res : List (Step O G A)) (g : G)
    (h : recomputeTrajectory succ traj = some res) (hg : lastAchievedGoal traj = some g) :
    res.map (fun s => s.o1.desired_goal) = List.replicate res.length g ∧
    res.map (fun s => s.o2.desired_goal) = List.replicate res.length g ∧
    res.map (fun s => s.r) =
      (traj.take res.length).map (fun s => if succ s.o2.achieved_goal g then (1 : ℚ) else 0) ∧
    res.map (fun s => s.t) =
      (traj.take res.length).map (fun s => s.t || succ s.o2.achieved_goal g) := by
  obtain ⟨hres, hpos, hle⟩ := recompute_res_eq succ traj res g h hg
  have hlen : (traj.take res.length).length = res.length := by
    simpa using hle
  refine ⟨?_, ?_, ?_, ?_⟩
  · conv_lhs => rw [hres]
    rw [List.map_map]
    have hc : ((fun s => s.o1.desired_goal) ∘ relabelStep succ g) =
        (fun _ : Step O G A => g) := rfl
    rw [hc, List.map_const', hlen]
  · conv_lhs => rw [hres]
    rw [List.map_map]
    have hc : ((fun s => s.o2.desired_goal) ∘ relabelStep succ g) =
        (fun _ : Step O G A => g) := rfl
    rw [hc, List.map_const', hlen]
  · conv_lhs => rw [hres]
    rw [List.map_map]
    rfl
  · conv_lhs => rw [hres]
    rw [List.map_map]
    rfl

/-- A concrete three-step trajectory (achieved goals 1, 2, 3; original desired
goal 9 never achieved; terminal only at the last step), matching the example
scenario of the specification. -/
def exTraj : List (Step ℕ ℕ ℕ) :=
  [⟨⟨0, 0, 9⟩, 0, 0, ⟨1, 1, 9⟩, false⟩,
   ⟨⟨1, 1, 9⟩, 0, 0, ⟨2, 2, 9⟩, false⟩,
   ⟨⟨2, 2, 9⟩, 0, 0, ⟨3, 3, 9⟩, true⟩]

/-- Goal-equality success predicate (FrozenLake-style exact match). -/
def succEq : ℕ → ℕ → Bool := fun a b => a == b

/-- The relabeled result of exTraj under succEq: anchor goal 3, rewards 0,0,1,
terminals false,false,true, all desired goals 3. -/
def exRes : List (Step ℕ ℕ ℕ) :=
  [⟨⟨0, 0, 3⟩, 0, 0, ⟨1, 1, 3⟩, false⟩,
   ⟨⟨1, 1, 3⟩, 0, 0, ⟨2, 2, 3⟩, false⟩,
   ⟨⟨2, 2, 3⟩, 0, 1, ⟨3, 3, 3⟩, true⟩]

theorem relabel_correctness_witness :
    exRes.map (fun s => s.o1.desired_goal) = List.replicate exRes.length 3 ∧
    exRes.map (fun s => s.o2.desired_goal) = List.replicate exRes.length 3 ∧
    exRes.map (fun s => s.r) =
      (exTraj.take exRes.length).map
        (fun s => if succEq s.o2.achieved_goal 3 then (1 : ℚ) else 0) ∧
    exRes.map (fun s => s.t) =
      (exTraj.take exRes.length).map (fun s => s.t || succEq s.o2.achieved_goal 3) :=
  relabel_correctness succEq exTraj exRes 3 (by decide) (by decide)

/-- C2: the relabeled result is the prefix of the relabeled trajectory up to
and including the first recomputed terminal (hindsight_wrapper.py lines
66-67): the last retained terminal is true, every earlier retained terminal
is false, and no retained step before the last is a recomputed success. -/
theorem truncation_at_first_terminal (succ : G → G → Bool) (traj res : List (Step O G A))
    (g : G) (h : recomputeTrajectory succ traj = some res)
    (hg : lastAchievedGoal traj = some g) :
    res ≠ [] ∧
    (res.map (fun s => s.t)).getLast? = some true ∧
    (res.map (fun s => s.t)).dropLast.all (fun b => !b) = true ∧
    res.dropLast.all (fun s => !(succ s.o2.achieved_goal g)) = true := by
  obtain ⟨g', k, hg', hk, hres⟩ := recompute_spec succ traj res h
  have hgg : g' = g := by
    rw [hg'] at hg
    exact Option.some.inj hg
  rw [hgg] at hk hres
  have hklt : k < ((relabelAll succ g traj).map (fun s => s.t)).length :=
    firstTrueIdx_lt_length _ _ hk
  have hrellen : k < (relabelAll succ g traj).length := by simpa using hklt
  have hlen : res.length = k + 1 := by
    rw [hres]
    simp
    omega
  have hmap : res.map (fun s => s.t) =
      ((relabelAll succ g traj).map (fun s => s.t)).take (k + 1) := by
    rw [hres, List.map_take]
  have hdrop : res.dropLast = (relabelAll succ g traj).take k := by
    rw [List.dropLast_eq_take, hlen, hres, List.take_take]
    simp
  refine ⟨?_, ?_, ?_, ?_⟩
  · intro hnil
    rw [hnil] at hlen
    simp at hlen
  · rw [hmap, List.getLast?_eq_getElem?]
    have hlt : ((((relabelAll succ g traj).map (fun s => s.t)).take (k + 1)).length) = k + 1 := by
      simp
      omega
    rw [hlt]
    simp only [Nat.add_sub_cancel]
    rw [List.getElem?_take_of_lt (Nat.lt_succ_self k)]
    rw [List.getElem?_eq_getElem hklt, firstTrueIdx_getElem _ _ hk hklt]
  · have hmapdrop : (res.map (fun s => s.t)).dropLast =
        (((relabelAll succ g traj).map (fun s => s.t)).take k) := by
      rw [← List.map_dropLast, hdrop, List.map_take]
    rw [hmapdrop]
    exact firstTrueIdx_take_all_false _ _ hk
  · rw [List.all_eq_true]
    intro s hs
    rw [hdrop] at hs
    have hst : s.t = false := by
      have h3 := firstTrueIdx_take_all_false _ _ hk
      rw [List.all_eq_true] at h3
      have hmem : s.t ∈ ((relabelAll succ g traj).map (fun s => s.t)).take k := by
        rw [← List.map_take]
        exact List.mem_map_of_mem _ hs
      simpa using h3 _ hmem
    have hrel : s ∈ relabelAll succ g traj := List.mem_of_mem_take hs
    obtain ⟨s0, hs0, hseq⟩ := List.mem_map.mp hrel
    rw [← hseq] at hst ⊢
    simp only [relabelStep, Bool.or_eq_false_iff] at hst
    simp only [relabelStep]
    simp [hst.2]

theorem truncation_witness :
    exRes ≠ [] ∧
    (exRes.map (fun s => s.t)).getLast? = some true ∧
    (exRes.map (fun s => s.t)).dropLast.all (fun b => !b) = true ∧
    exRes.dropLast.all (fun s => !(succEq s.o2.achieved_goal 3)) = true :=
  truncation_at_first_terminal succEq exTraj exRes 3 (by decide) (by decide)

/-- Relabeling anchored at step index k: HindsightTrainer.add_hindsight_trajectories
(sac/train.py lines 249-252) passes recompute_trajectory only the slice of
the recorded trajectory up to and including the anchor step
(trajectory[:final_index] with negative final_index = anchor + 1 - timesteps). -/
def relabelAt (succ : G → G → Bool) (traj : List (Step O G A)) (k : Nat) :
    Option (List (Step O G A)) :=
  recomputeTrajectory succ (traj.take (k + 1))

/-- C3: no future leakage.  Two trajectories that agree on steps 0..anchor
produce identical relabeled results (hence identical recomputed rewards,
terminals and desired goals at every retained index), and every retained
index is at or before the anchor. -/
theorem no_future_leakage (succ : G → G → Bool) (t1 t2 : List (Step O G A)) (k : Nat)
    (h : t1.take (k + 1) = t2.take (k + 1)) :
    relabelAt succ t1 k = relabelAt succ t2 k ∧
    ((relabelAt succ t1 k).map (fun res => res.length)).getD 0 ≤ k + 1 := by
  constructor
  · unfold relabelAt
    rw [h]
  · cases hr : relabelAt succ t1 k with
    | none => simp
    | some res =>
      obtain ⟨g, k0, hg, hk0, hres⟩ := recompute_spec succ (t1.take (k + 1)) res hr
      have h1 : res.length ≤ (t1.take (k + 1)).length := by
        rw [hres]
        simp only [relabelAll, List.length_take, List.length_map]
        omega
      have h2 : (t1.take (k + 1)).length ≤ k + 1 := by
        simp only [List.length_take]
        omega
      simp only [Option.map_some', Option.getD_some]
      omega

/-- Same first two steps as exTraj, different third step: only content after
the anchor differs. -/
def exTrajAlt : List (Step ℕ ℕ ℕ) :=
  [⟨⟨0, 0, 9⟩, 0, 0, ⟨1, 1, 9⟩, false⟩,
   ⟨⟨1, 1, 9⟩, 0, 0, ⟨2, 2, 9⟩, false⟩,
   ⟨⟨2, 2, 9⟩, 0, 7, ⟨5, 6, 9⟩, false⟩]

theorem no_future_leakage_witness :
    relabelAt succEq exTraj 1 = relabelAt succEq exTrajAlt 1 ∧
    ((relabelAt succEq exTraj 1).map (fun res => res.length)).getD 0 ≤ 1 + 1 :=
  no_future_leakage succEq exTraj exTrajAlt 1 (by decide)

/-- np.random.randint(low, high, size) of sac/train.py line 245, modelled with
an explicit list raw of underlying random draws: size samples in [lo, hi)
with replacement; none where numpy raises ValueError (low >= high). -/
def randint (lo hi : Nat) (raw : List Nat) : Option (List Nat) :=
  if lo < hi then some (raw.map (fun x => lo + x % (hi - lo))) else none

/-- The append loop of sac/train.py lines 249-252: one buffer append per drawn
final index; the slice handed to recompute_trajectory for
final_index = i - timesteps is the prefix of the first i steps. -/
def appendRelabeled (succ : G → G → Bool) (traj : List (Step O G A)) :
    List Nat → List (List (Step O G A)) × Option String
  | [] => ([], none)
  | i :: is =>
    match recomputeTrajectory succ (traj.take i) with
    | none => ([], some "IndexError")
    | some tr =>
      (tr :: (appendRelabeled succ traj is).1, (appendRelabeled succ traj is).2)

/-- HindsightTrainer.add_hindsight_trajectories (sac/train.py lines 239-252).
Result: the list of relabeled trajectories appended to the replay buffer, in
order, paired with the exception raised, if any.  traj is the recorded
episode (timesteps() = traj.length); raw supplies the random draws behind
np.random.randint. -/
def addHindsightTrajectories (succ : G → G → Bool) (traj : List (Step O G A))
    (nGoals : Nat) (raw : List Nat) : List (List (Step O G A)) × Option String :=
  if traj.length = 0 then ([], none)
  else
    match recomputeTrajectory succ traj with
    | none => ([], some "IndexError")
    | some first =>
      if nGoals - 1 = 0 then ([first], none)
      else
        match randint 1 traj.length raw with
        | none => ([first], some "ValueError")
        | some idxs =>
          (first :: (appendRelabeled succ traj idxs).1,
           (appendRelabeled succ traj idxs).2)

/-- C5: relabeling a zero-step trajectory is a guarded early-return: both
timesteps() > 0 checks of add_hindsight_trajectories (sac/train.py lines 241
and 244) fail, so nothing is appended, recompute_trajectory is never entered,
and no exception is raised, for every number of goals and every random draw. -/
theorem empty_trajectory_guarded (succ : G → G → Bool) (nGoals : Nat) (raw : List Nat) :
    addHindsightTrajectories succ ([] : List (Step O G A)) nGoals raw = ([], none) := rfl

theorem recompute_isSome (succ : G → G → Bool) (hrefl : ∀ x, succ x x = true)
    (traj : List (Step O G A)) (hne : traj ≠ []) :
    ∃ res, recomputeTrajectory succ traj = some res := by
  have hpos : 0 < traj.length := List.length_pos.mpr hne
  have hlast : traj.getLast? = some (traj.getLast hne) := List.getLast?_eq_getLast traj hne
  have hg : lastAchievedGoal traj = some (traj.getLast hne).o2.achieved_goal := by
    rw [lastAchievedGoal, hlast, Option.map_some']
  have hj : traj.length - 1 <
      (((relabelAll succ (traj.getLast hne).o2.achieved_goal traj)).map
        (fun s => s.t)).length := by
    simp only [relabelAll, List.length_map]
    omega
  have htrue : (((relabelAll succ (traj.getLast hne).o2.achieved_goal traj)).map
      (fun s => s.t))[traj.length - 1] = true := by
    simp only [relabelAll, List.getElem_map]
    have hidx : traj[traj.length - 1] = traj.getLast hne := by
      rw [List.getLast_eq_getElem]
    rw [hidx]
    simp [relabelStep, hrefl]
  obtain ⟨k, hk, -⟩ := firstTrueIdx_isSome_of_true _ _ hj htrue
  refine ⟨(relabelAll succ (traj.getLast hne).o2.achieved_goal traj).take (k + 1), ?_⟩
  rw [recomputeTrajectory, hg]
  simp only [hk]

theorem appendRelabeled_total (succ : G → G → Bool) (traj : List (Step O G A))
    (idxs : List Nat)
    (hok : ∀ i ∈ idxs, ∃ r, recomputeTrajectory succ (traj.take i) = some r) :
    (appendRelabeled succ traj idxs).2 = none ∧
    (appendRelabeled succ traj idxs).1.length = idxs.length := by
  induction idxs with
  | nil => simp [appendRelabeled]
  | cons i is ih =>
    obtain ⟨r, hr⟩ := hok i (by simp)
    have ih2 := ih (fun j hj => hok j (by simp [hj]))
    rw [appendRelabeled, hr]
    simpa using ih2

/-- C7 (amended): for a trajectory with at least two timesteps and n_goals at
least 2, the trainer draws n_goals - 1 final indexes with replacement from
the proper prefixes (np.random.randint(1, timesteps)), including when
n_goals - 1 exceeds the number of timesteps, and appends one relabeled
trajectory per draw with no exception, in addition to the full-trajectory
relabeling anchored at the true final state, which is appended first. -/
theorem hindsight_anchor_sampling (succ : G → G → Bool) (hrefl : ∀ x, succ x x = true)
    (traj : List (Step O G A)) (h2 : 2 ≤ traj.length) (nGoals : Nat) (hn : 2 ≤ nGoals)
    (raw : List Nat) (hraw : raw.length = nGoals - 1) :
    (addHindsightTrajectories succ traj nGoals raw).2 = none ∧
    (addHindsightTrajectories succ traj nGoals raw).1.length = nGoals ∧
    (addHindsightTrajectories succ traj nGoals raw).1.head? =
      some ((recomputeTrajectory succ traj).getD []) := by
  have hne : traj ≠ [] := by
    intro hnil
    rw [hnil] at h2
    simp at h2
  obtain ⟨first, hfirst⟩ := recompute_isSome succ hrefl traj hne
  have hri : randint 1 traj.length raw =
      some (raw.map (fun x => 1 + x % (traj.length - 1))) := by
    rw [randint, if_pos (by omega)]
  have hok : ∀ i ∈ raw.map (fun x => 1 + x % (traj.length - 1)),
      ∃ r, recomputeTrajectory succ (traj.take i) = some r := by
    intro i hi
    obtain ⟨x, -, hx⟩ := List.mem_map.mp hi
    have hipos : 1 ≤ i := by omega
    apply recompute_isSome succ hrefl
    intro htk
    rw [List.take_eq_nil_iff] at htk
    rcases htk with h0 | h0
    · omega
    · exact hne h0
  obtain ⟨he, hlen⟩ := appendRelabeled_total succ traj _ hok
  have hc0 : ¬ traj.length = 0 := by omega
  have hc1 : ¬ (nGoals - 1 = 0) := by omega
  rw [addHindsightTrajectories]
  simp only [if_neg hc0, hfirst, if_neg hc1, hri]
  refine ⟨by simpa using he, ?_, ?_⟩
  · simp only [List.length_cons, hlen, List.length_map, hraw]
    omega
  · simp

theorem hindsight_anchor_sampling_witness :
    (addHindsightTrajectories succEq exTraj 2 [5]).2 = none ∧
    (addHindsightTrajectories succEq exTraj 2 [5]).1.length = 2 ∧
    (addHindsightTrajectories succEq exTraj 2 [5]).1.head? =
      some ((recomputeTrajectory succEq exTraj).getD []) :=
  hindsight_anchor_sampling succEq (fun x => by simp [succEq]) exTraj (by decide) 2
    (by decide) [5] (by decide)

/-- A completed one-step trajectory (episode terminated on its first step). -/
def exTraj1 : List (Step ℕ ℕ ℕ) := [⟨⟨0, 0, 9⟩, 0, 0, ⟨1, 1, 9⟩, true⟩]

/-- C7 counterexample: on a completed non-empty trajectory with a single
timestep and n_goals = 2, np.random.randint(1, 1, size=1) raises ValueError
(sac/train.py line 245), so the claimed n_goals appends without error do not
happen: only the final-state relabeling was appended before the exception. -/
theorem hindsight_anchor_sampling_counterexample :
    ¬ ((addHindsightTrajectories succEq exTraj1 2 [0]).2 = none ∧
       (addHindsightTrajectories succEq exTraj1 2 [0]).1.length = 2) := by decide

/-- The (observation, reward, terminal, info) quadruple returned by a
gym-style step; info is modelled as an association list of labelled scalars. -/
structure StepOut (O G : Type) where
  obs : Observation O G
  r : ℚ
  t : Bool
  info : List (String × ℚ)
deriving DecidableEq

/-- HindsightWrapper._add_goals (hindsight_wrapper.py lines 39-43). -/
def add_goals (ag dg : G) (envObs : O) : Observation O G :=
  ⟨envObs, ag, dg⟩

/-- HindsightWrapper.step (hindsight_wrapper.py lines 45-47): augments the
observation with goals and returns the base reward, terminal and info
unchanged. -/
def hindsightWrapperStep (ag dg : G) (baseObs : O) (baseR : ℚ) (baseT : Bool)
    (info : List (String × ℚ)) : StepOut O G :=
  ⟨add_goals ag dg baseObs, baseR, baseT, info⟩

/-- MountaincarHindsightWrapper.step (hindsight_wrapper.py lines 86-92):
overrides the reward with float(is_success), the terminal with success OR
base terminal, and stores the base reward in info under base_reward. -/
def mountaincarStep (succ : G → G → Bool) (ag dg : G) (baseObs : O) (baseR : ℚ)
    (baseT : Bool) (info : List (String × ℚ)) : StepOut O G :=
  let o2 := add_goals ag dg baseObs
  let s := succ o2.achieved_goal o2.desired_goal
  ⟨o2, if s then 1 else 0, s || baseT, ("base_reward", baseR) :: info⟩

/-- FrozenLakeHindsightWrapper.step (hindsight_wrapper.py lines 187-193):
builds the goal-augmented observation but returns the base reward, terminal
and info unchanged; no success predicate is consulted and no info key is
added. -/
def frozenLakeStep (ag dg : G) (baseObs : O) (baseR : ℚ) (baseT : Bool)
    (info : List (String × ℚ)) : StepOut O G :=
  ⟨⟨baseObs, ag, dg⟩, baseR, baseT, info⟩

/-- C4 counterexample: FrozenLakeHindsightWrapper.step at a state whose
achieved goal equals its desired goal (a success under the FrozenLake
equality predicate) with base reward 5 and base terminal false returns the
base reward 5 instead of 1, keeps the terminal false despite the success,
and adds no base_reward key to info: this wrapper's step does not override
reward or terminal, so the claim does not hold of every wrapper. -/
theorem step_override_counterexample :
    ¬ ((frozenLakeStep (O := ℕ) (G := ℕ) 3 3 0 5 false []).r =
         (if succEq 3 3 then (1 : ℚ) else 0) ∧
       (frozenLakeStep (O := ℕ) (G := ℕ) 3 3 0 5 false []).t =
         (succEq 3 3 || false) ∧
       ((frozenLakeStep (O := ℕ) (G := ℕ) 3 3 0 5 false []).info.lookup
         "base_reward").isSome = true) := by decide

/-- C4 (amended): only MountaincarHindsightWrapper.step overrides the base
reward and terminal signal — reward = 1 on success else 0, terminal = success
OR base terminal, base reward preserved in info under base_reward — while
the generic HindsightWrapper.step and FrozenLakeHindsightWrapper.step return
the base reward, terminal and info unchanged. -/
theorem step_override_amended (succ : G → G → Bool) (ag dg : G) (baseObs : O)
    (baseR : ℚ) (baseT : Bool) (info : List (String × ℚ)) :
    (mountaincarStep succ ag dg baseObs baseR baseT info).r =
      (if succ ag dg then 1 else 0) ∧
    (mountaincarStep succ ag dg baseObs baseR baseT info).t = (succ ag dg || baseT) ∧
    (mountaincarStep succ ag dg baseObs baseR baseT info).info.lookup "base_reward" =
      some baseR ∧
    (hindsightWrapperStep ag dg baseObs baseR baseT info : StepOut O G).r = baseR ∧
    (hindsightWrapperStep ag dg baseObs baseR baseT info : StepOut O G).t = baseT ∧
    (frozenLakeStep ag dg baseObs baseR baseT info : StepOut O G).r = baseR ∧
    (frozenLakeStep ag dg baseObs baseR baseT info : StepOut O G).t = baseT ∧
    (frozenLakeStep ag dg baseObs baseR baseT info : StepOut O G).info = info := by
  refine ⟨rfl, rfl, ?_, rfl, rfl, rfl, rfl, rfl⟩
  simp [mountaincarStep, List.lookup]

/-- Trainer.add_to_buffer (sac/train.py lines 186-188): appends the step to
the replay buffer unchanged; no reward scaling happens on the storage path.
The replay buffer (sac/replay_buffer.py, not under src) is modelled as the
list of stored transitions; circular eviction is irrelevant to the reward
dataflow. -/
def add_to_buffer (buffer : List (Step O G A)) (s : Step O G A) : List (Step O G A) :=
  buffer ++ [s]

/-- The reward value actually fed to the training graph, LstmAgent.train_step
(sac/networks.py line 68): np.array(step.r) * self.reward_scale, applied to
the batch sampled from the buffer at training time. -/
def train_reward_feed (reward_scale r : ℚ) : ℚ := r * reward_scale

/-- C8: rewards enter the replay buffer unscaled — add_to_buffer stores the
transition verbatim, and relabeled rewards are stored as raw 0/1 — and the
reward_scale multiplication is applied exactly once per transition, at the
training feed, identically for relabeled and non-relabeled transitions. -/
theorem reward_scaled_once (reward_scale : ℚ) (buffer : List (Step O G A))
    (s : Step O G A) (succ : G → G → Bool) (traj res : List (Step O G A))
    (h : recomputeTrajectory succ traj = some res) :
    (add_to_buffer buffer s).map (fun x => x.r) = buffer.map (fun x => x.r) ++ [s.r] ∧
    train_reward_feed reward_scale s.r = s.r * reward_scale ∧
    res.all (fun x => x.r == 0 || x.r == 1) = true ∧
    res.all (fun x => train_reward_feed reward_scale x.r == x.r * reward_scale) = true := by
  obtain ⟨g, k, hg, hk, hres⟩ := recompute_spec succ traj res h
  refine ⟨by simp [add_to_buffer], rfl, ?_, ?_⟩
  · rw [List.all_eq_true]
    intro x hx
    obtain ⟨x0, -, hxe⟩ := mem_recompute succ traj res g h hg x hx
    rw [hxe]
    simp only [relabelStep]
    by_cases hs : succ x0.o2.achieved_goal g = true
    · simp [hs]
    · simp [hs]
  · rw [List.all_eq_true]
    intro x hx
    simp [train_reward_feed]

/-- A concrete non-relabeled transition with a non-unit reward. -/
def exStepB : Step ℕ ℕ ℕ := ⟨⟨0, 0, 9⟩, 0, 5, ⟨1, 1, 9⟩, false⟩

theorem reward_scaled_once_witness :
    (add_to_buffer [] exStepB).map (fun x => x.r) =
      ([] : List (Step ℕ ℕ ℕ)).map (fun x => x.r) ++ [exStepB.r] ∧
    train_reward_feed 3 exStepB.r = exStepB.r * 3 ∧
    exRes.all (fun x => x.r == 0 || x.r == 1) = true ∧
    exRes.all (fun x => train_reward_feed 3 x.r == x.r * 3) = true :=
  reward_scaled_once 3 [] exStepB succEq exTraj exRes (by decide)

/-- Heap model of recompute_trajectory's effect on its caller.  The caller's
trajectory lives in the heap cell named by ref; hindsight_wrapper.py line 53
(Step(*deepcopy(trajectory))) allocates a fresh cell holding a copy, the
in-place ArrayGroup assignments of lines 61-64 write only to that fresh
cell, and the returned slice is computed from the copy.  On an empty slice
the IndexError of line 58 fires before any assignment, leaving the copy
holding the unmodified value. -/
def recomputeTrajectoryHeap (succ : G → G → Bool)
    (heap : List (List (Step O G A))) (ref : Nat) :
    List (List (Step O G A)) × Option (List (Step O G A)) :=
  let v := heap.getD ref []
  let copyCell :=
    match lastAchievedGoal v with
    | none => v
    | some g => relabelAll succ g v
  (heap ++ [copyCell], recomputeTrajectory succ v)

/-- C9: recompute_trajectory never mutates its input: every pre-existing heap
cell — in particular the caller's trajectory at ref — is unchanged by the
call, the only written cell is the freshly allocated copy at the new index
heap.length, and the returned result is computed from the copied value. -/
theorem recompute_no_mutation (succ : G → G → Bool)
    (heap : List (List (Step O G A))) (ref : Nat) :
    (recomputeTrajectoryHeap succ heap ref).1.take heap.length = heap ∧
    (recomputeTrajectoryHeap succ heap ref).1.length = heap.length + 1 ∧
    (recomputeTrajectoryHeap succ heap ref).2 =
      recomputeTrajectory succ (heap.getD ref []) := by
  refine ⟨?_, by simp [recomputeTrajectoryHeap], rfl⟩
  simp [recomputeTrajectoryHeap]

/-- Modelled from the spec: vectorize of sac/utils.py is not under src; per
the spec, vectorization turns structured components into one flat numeric
vector. -/
def vectorize (xs : List (List ℚ)) : List ℚ := xs.flatten

/-- HindsightWrapper.preprocess_obs (hindsight_wrapper.py lines 69-72): the
wrapper's vectorization of a tri-part observation is the flat vector of the
raw observation together with the desired goal. -/
def preprocess_obs (o : Observation (List ℚ) (List ℚ)) : List ℚ :=
  vectorize [o.observation, o.desired_goal]

/-- Modelled from the spec: HindsightTrainer.vectorize_state (sac/train.py
lines 258-260) delegates to the env chain's vectorize_state, whose definition
is not under src; per the spec the flat vector fed to the networks is the
vectorization of the observation together with the desired goal — exactly
what the wrapper's preprocess_obs computes. -/
def vectorize_state (o : Observation (List ℚ) (List ℚ)) : List ℚ :=
  preprocess_obs o

/-- One get_actions query of sac/train.py lines 104-105: the vectorized
current observation and the sample flag (not is_eval_period()). -/
structure ActCall where
  arg : List ℚ
  sample : Bool
deriving DecidableEq

/-- Observable effects of one run of Trainer.run_episode (sac/train.py lines
99-146): the observation current at each loop iteration, the get_actions
queries issued, the number of transitions appended to the replay buffer and
the number of train_step gradient updates. -/
structure EpisodeTrace where
  visited : List (Observation (List ℚ) (List ℚ))
  actCalls : List ActCall
  bufferAppends : Nat
  trainCalls : Nat
deriving DecidableEq

/-- Trainer.run_episode (sac/train.py lines 99-146) driven by the list of env
responses (next observation, reward, terminal).  Each iteration queries
get_actions with the vectorized current state and sample = not
is_eval_period() (lines 104-105), appends the transition to the replay
buffer unconditionally (line 115), and, once the buffer holds at least
batch_size entries, runs num_train_steps train steps when perform_updates is
set (lines 117-118); the loop returns at the first terminal response.  buf
is the buffer occupancy at loop entry. -/
def run_episode (isEval performUpdates : Bool) (numTrainSteps batchSize : Nat) :
    Nat → Observation (List ℚ) (List ℚ) →
    List (Observation (List ℚ) (List ℚ) × ℚ × Bool) → EpisodeTrace
  | _, _, [] => ⟨[], [], 0, 0⟩
  | buf, s1, (_, _, true) :: _ =>
    ⟨[s1], [⟨vectorize_state s1, !isEval⟩], 1,
     if performUpdates = true ∧ batchSize ≤ buf + 1 then numTrainSteps else 0⟩
  | buf, s1, (s2, _, false) :: rest =>
    let tr := run_episode isEval performUpdates numTrainSteps batchSize (buf + 1) s2 rest
    ⟨s1 :: tr.visited, ⟨vectorize_state s1, !isEval⟩ :: tr.actCalls, tr.bufferAppends + 1,
     (if performUpdates = true ∧ batchSize ≤ buf + 1 then numTrainSteps else 0) +
       tr.trainCalls⟩

/-- Trainer.is_eval_period (sac/train.py lines 96-97): the episode counter
modulo 100 equals 99 — a deterministic every-100th-episode cadence. -/
def is_eval_period (episode : Nat) : Bool := episode % 100 == 99

/-- The perform_updates flag the trainer passes to run_episode (sac/train.py
line 78): not is_eval_period() and load_path is None. -/
def perform_updates_flag (isEval loadPathIsNone : Bool) : Bool :=
  !isEval && loadPathIsNone

/-- C6 (amended): during an evaluation episode every get_actions query has
sampling disabled (greedy selection) and no gradient update runs
(perform_updates = not eval AND load_path is None is false); however,
transitions are still written to the replay buffer — the append at
sac/train.py line 115 is unconditional, so the number of buffer appends
equals the number of loop iterations, not zero. -/
theorem eval_episode_greedy_no_updates (loadPathIsNone : Bool)
    (numTrainSteps batchSize buf : Nat) (s1 : Observation (List ℚ) (List ℚ))
    (responses : List (Observation (List ℚ) (List ℚ) × ℚ × Bool)) :
    (run_episode true (perform_updates_flag true loadPathIsNone) numTrainSteps batchSize
        buf s1 responses).actCalls.all (fun c => !c.sample) = true ∧
    (run_episode true (perform_updates_flag true loadPathIsNone) numTrainSteps batchSize
        buf s1 responses).trainCalls = 0 ∧
    (run_episode true (perform_updates_flag true loadPathIsNone) numTrainSteps batchSize
        buf s1 responses).bufferAppends =
      (run_episode true (perform_updates_flag true loadPathIsNone) numTrainSteps batchSize
        buf s1 responses).visited.length := by
  have hpu : perform_updates_flag true loadPathIsNone = false := by
    simp [perform_updates_flag]
  rw [hpu]
  induction responses generalizing buf s1 with
  | nil => exact ⟨rfl, rfl, rfl⟩
  | cons hd rest ih =>
    obtain ⟨s2, r, t⟩ := hd
    cases t with
    | true => simp [run_episode]
    | false =>
      obtain ⟨ih1, ih2, ih3⟩ := ih (buf + 1) s2
      simp [run_episode, ih1, ih2, ih3]

/-- An arbitrary concrete observation for the episode model. -/
def exObs : Observation (List ℚ) (List ℚ) := ⟨[0], [1], [2]⟩

/-- C6 counterexample: episode 99 is an evaluation episode
(is_eval_period 99 = true), yet a one-step evaluation episode appends its
transition to the replay buffer, because the append at sac/train.py line 115
runs unconditionally: the claimed absence of buffer writes during evaluation
episodes fails. -/
theorem eval_episode_counterexample :
    is_eval_period 99 = true ∧
    (run_episode true (perform_updates_flag true true) 4 32 0 exObs
        [(exObs, 0, true)]).bufferAppends ≠ 0 := by decide

/-- C10: on each ACT step the agent is queried with the vectorized current
observation: every get_actions call's argument is the flat vector of the raw
observation together with the desired goal of the observation current at
that iteration (the goal-conditioned wrapper's vectorization), with
sample = not is_eval_period(). -/
theorem act_queries_vectorized (isEval performUpdates : Bool)
    (numTrainSteps batchSize buf : Nat) (s1 : Observation (List ℚ) (List ℚ))
    (responses : List (Observation (List ℚ) (List ℚ) × ℚ × Bool)) :
    (run_episode isEval performUpdates numTrainSteps batchSize buf s1
        responses).actCalls =
      (run_episode isEval performUpdates numTrainSteps batchSize buf s1
          responses).visited.map
        (fun o => ⟨vectorize [o.observation, o.desired_goal], !isEval⟩) := by
  induction responses generalizing buf s1 with
  | nil => rfl
  | cons hd rest ih =>
    obtain ⟨s2, r, t⟩ := hd
    cases t with
    | true => rfl
    | false =>
      simp only [run_episode, List.map_cons]
      rw [ih (buf + 1) s2]
      rfl

end HER
